import Mathlib

/-!
Shallow embedding of the AI-chat file ingestion pipeline:
upload-store dedup/replace logic, atomic index persistence, directory
loading, text extraction with error containment, archive expansion with
size ceilings, configuration loading, and history saving.

Python dict records are embedded as Lean structures with the fields the
code reads; byte strings are `List Nat`; file-system interaction is made
explicit (directory contents as lists, write failures as oracles);
external decoders (pypdf, docx, pandas, OCR, archive containers) are
parameters returning `Except` values, since their parse outcomes are
inputs to the code under study.
-/

namespace AIChat

/-! ## Upload-store records and dedup/replace (file_loader.py) -/

/-- An in-memory upload record as handled by `add_or_replace_file_with_content`:
a Python dict with at least `filename` and `key` (the sha256 content key).
The pipeline always populates both fields, so they are mandatory here. -/
structure FileRec where
  filename : String
  key : String
  deriving DecidableEq, Repr

/-- `add_or_replace_file_with_content(new_file, existing, check_content=True)`
(file_loader.py lines 252-267): if `check_content` and some existing record
has the same content key, return `existing` unchanged; otherwise drop every
existing record with the same filename and append the new record. -/
def add_or_replace_file_with_content (new_file : FileRec) (existing : List FileRec)
    (check_content : Bool) : List FileRec :=
  if check_content && existing.any (fun f => decide (f.key = new_file.key)) then
    existing
  else
    existing.filter (fun f => decide (f.filename ≠ new_file.filename)) ++ [new_file]

/-- Loop body of `add_or_replace_file_with_content_batch` (lines 291-315):
`result` is the accumulated list, `keys` the keys of `content_map`
(initially the keys of `existing`; grown with each appended record, never
shrunk when same-name records are popped). Popping every index with the new
file's name and appending at the end is written as filter-and-append. -/
def add_or_replace_batch_go : List FileRec → List FileRec → List String → List FileRec
  | [], result, _ => result
  | new_file :: rest, result, keys =>
    if new_file.key ∈ keys then
      add_or_replace_batch_go rest result keys
    else
      add_or_replace_batch_go rest
        (result.filter (fun f => decide (f.filename ≠ new_file.filename)) ++ [new_file])
        (keys ++ [new_file.key])

/-- `add_or_replace_file_with_content_batch(new_files, existing)`
(file_loader.py lines 270-319): `content_map = {f['key']: f for f in existing}`,
`result = existing.copy()`, then the sequential loop above. -/
def add_or_replace_file_with_content_batch (new_files existing : List FileRec) :
    List FileRec :=
  add_or_replace_batch_go new_files existing (existing.map (fun f => f.key))

/-! ## Atomic persistence of the upload index (file_loader.py lines 196-207)

`save_uploaded_files` serializes the records (modelled below for C5), then:
opens/writes the temp file with `json.dump`, unlinks the canonical state file
if it exists, and renames the temp file onto the canonical path.  The
`except` handler logs the error, removes the temp file if present, and
returns normally — the exception is not re-raised. -/

/-- The two files `save_uploaded_files` touches: the `.tmp` file and the
canonical `.state.json`; `none` means the file is absent. -/
structure IndexFS where
  temp : Option String
  canonical : Option String
  deriving DecidableEq, Repr

/-- The three file-system steps of the write phase, in program order. -/
inductive PersistStep where
  | dump
  | unlinkOld
  | rename
  deriving DecidableEq, Repr

/-- The `except` handler of `save_uploaded_files`: logs, removes the temp file
if it exists, and falls off the end of the function (no re-raise).  The
second component reports whether an exception propagates to the caller. -/
def persistCleanup (fs : IndexFS) : IndexFS × Bool :=
  ({ fs with temp := none }, false)

/-- The write phase of `save_uploaded_files(files)`: `fails` says which steps
raise (the first failing step in program order aborts into the handler);
`leftoverTemp` is whatever content a failed `json.dump` left in the temp file;
`serialized` is the rendered JSON; `fs` the file system before the call.
Returns the file system after the call and whether an exception escaped. -/
def save_uploaded_files_fs (fails : PersistStep → Bool) (leftoverTemp serialized : String)
    (fs : IndexFS) : IndexFS × Bool :=
  if fails PersistStep.dump then
    persistCleanup { fs with temp := some leftoverTemp }
  else
    let fs1 : IndexFS := { fs with temp := some serialized }
    if fs1.canonical.isSome && fails PersistStep.unlinkOld then
      persistCleanup fs1
    else
      let fs2 : IndexFS := { fs1 with canonical := none }
      if fails PersistStep.rename then
        persistCleanup fs2
      else
        ({ temp := none, canonical := some serialized }, false)

/-! ## Loading and serializing the upload directory (file_loader.py lines 143-207) -/

/-- Python `s.startswith(pre)`, written on the character lists so that it
evaluates on concrete strings. -/
def strStartsWith (s pre : String) : Bool := pre.data.isPrefixOf s.data

/-- Python `s.endswith(suf)`, written on the character lists. -/
def strEndsWith (s suf : String) : Bool := suf.data.isSuffixOf s.data

/-- Python `s.lower()` (ASCII-adequate), written on the character list. -/
def lowerString (s : String) : String := String.mk (s.data.map Char.toLower)

/-- Split a character list at every occurrence of `c`, like Python
`s.split(c)`: always at least one (possibly empty) part. -/
def splitOnChar (c : Char) : List Char → List (List Char)
  | [] => [[]]
  | a :: as =>
    let r := splitOnChar c as
    if a == c then [] :: r
    else
      match r with
      | [] => [[a]]
      | h :: t => (a :: h) :: t

/-- A regular file in the upload directory: name, byte content, and
modification time.  Directory entries that are not regular files are not
modelled; `load_uploaded_files` only keeps `fp.is_file()` entries. -/
structure DiskFile where
  name : String
  content : List Nat
  mtime : Nat
  deriving DecidableEq, Repr

/-- Stable insertion keeping earlier-listed files first among equal mtimes,
as Python's stable `sorted(key=lambda f: f.stat().st_mtime)` does. -/
def insertByMtime (f : DiskFile) : List DiskFile → List DiskFile
  | [] => [f]
  | g :: gs => if f.mtime ≤ g.mtime then f :: g :: gs else g :: insertByMtime f gs

/-- `sorted(UPLOAD_DIR.iterdir(), key=lambda f: f.stat().st_mtime)`. -/
def sortByMtime : List DiskFile → List DiskFile
  | [] => []
  | f :: fs => insertByMtime f (sortByMtime fs)

/-- A record as built by `load_uploaded_files` (lines 148-159); `path` is the
file's name inside the upload directory, `timestamp` its mtime. -/
structure LoadedRec where
  filename : String
  key : String
  content : List Nat
  size : Nat
  timestamp : Nat
  deriving DecidableEq, Repr

/-- `load_uploaded_files()` (lines 143-164): iterate the upload directory
sorted by mtime ascending, keep regular files whose name does not start with
a dot (this also skips the persisted `.state.json` index itself), and build a
record with a freshly computed content hash.  `hash` stands for the sha256
function `_content_hash`. -/
def load_uploaded_files (hash : List Nat → String) (dir : List DiskFile) :
    List LoadedRec :=
  ((sortByMtime dir).filter (fun f => !(strStartsWith f.name "."))).map fun f =>
    { filename := f.name, key := hash f.content, content := f.content,
      size := f.content.length, timestamp := f.mtime }

/-- An in-memory record handed to `save_uploaded_files`: the code reads
`filename`, `path` (modelled by the filename, since records in the store all
live in the upload directory and relative paths are resolved against it),
`key` and `content`. -/
structure UploadRec where
  filename : String
  key : String
  content : List Nat
  deriving DecidableEq, Repr

/-- An entry of the serialized `.state.json` index. -/
structure SavedRec where
  filename : String
  key : String
  size : Nat
  deriving DecidableEq, Repr

/-- The serialization loop of `save_uploaded_files(files)` (lines 174-194):
for each record, resolve its path inside the upload directory, take the size
from disk when the file exists and from the in-memory content otherwise, and
keep `filename`/`key`/`size`. -/
def save_uploaded_files_serialize (disk : List DiskFile) (files : List UploadRec) :
    List SavedRec :=
  files.map fun f =>
    { filename := f.filename, key := f.key,
      size := match disk.find? (fun d => decide (d.name = f.filename)) with
              | some d => d.content.length
              | none => f.content.length }

/-! ## Text extraction (tools.py) -/

/-- 50 MiB whole-input ceiling, `MAX_BYTES` in tools.py. -/
def MAX_BYTES : Nat := 50 * 1024 * 1024

/-- The archive suffixes excluded from the large-file branch and dispatched
to `process_archive`. -/
def archiveSuffixes : List String := [".zip", ".rar", ".7z", ".tar", ".gz"]

/-- A zip entry as seen through `zipfile`: its name, the metadata size from
`getinfo(name).file_size`, and the outcome of `z.open(name).read()` (which
can raise, e.g. on a bad CRC — caught per member). -/
structure ZipMember where
  name : String
  fileSize : Nat
  read : Except String (List Nat)

/-- A rar entry from `infolist()`; member reads that raise are not modelled
separately because the rar loop has no per-member handler (such an exception
reaches the container-level handler, modelled by a failing `rarParse`). -/
structure RarMember where
  filename : String
  isDir : Bool
  content : List Nat

/-- A tar entry from `getmembers()`. -/
structure TarMember where
  name : String
  isFile : Bool
  content : List Nat

/-- The external decoders and archive containers `extract_text` calls.
Encodings that can fail return `Option`; format decoders and container
parsers return `Except` carrying the raised exception's text. -/
structure Codecs where
  utf8 : List Nat → Option String
  gbk : List Nat → Option String
  latin1 : List Nat → Option String
  utf8Ignore : List Nat → String
  pdf : List Nat → Except String String
  docx : List Nat → Except String String
  csv : List Nat → Except String String
  jsonFmt : List Nat → Except String String
  html : List Nat → Except String String
  ocr : List Nat → Except String String
  zipParse : List Nat → Except String (List ZipMember)
  rarParse : List Nat → Except String (List RarMember)
  sevenZParse : List Nat → Except String (List (String × List Nat))
  tarParse : List Nat → Except String (List TarMember)

/-- `_safe_decode(data)` (tools.py lines 24-30): try utf-8, gbk, latin1 in
order, then fall back to utf-8 with undecodable bytes ignored.  (CPython's
latin1 decoder never fails, so the last fallback is unreachable there; the
model keeps all four stages.) -/
def _safe_decode (C : Codecs) (data : List Nat) : String :=
  match C.utf8 data with
  | some s => s
  | none =>
    match C.gbk data with
    | some s => s
    | none =>
      match C.latin1 data with
      | some s => s
      | none => C.utf8Ignore data

/-- Loop of `_extract_large_file` (tools.py lines 33-45): read a chunk, stop
on EOF, otherwise decode and append it, and once the cumulative byte count
exceeds 50 MiB append the truncation marker and stop. -/
def _extract_large_file_go (C : Codecs) (chunkSize : Nat) (data : List Nat)
    (total : Nat) (acc : String) : String :=
  if h : (data.take chunkSize).length = 0 then acc
  else
    let total1 := total + (data.take chunkSize).length
    let acc1 := acc ++ _safe_decode C (data.take chunkSize)
    if MAX_BYTES < total1 then acc1 ++ "\n[内容过长，已截断]"
    else _extract_large_file_go C chunkSize (data.drop chunkSize) total1 acc1
termination_by data.length
decreasing_by
  rw [List.length_take] at h
  simp only [List.length_drop]
  omega

/-- `_extract_large_file(fp, file_name, chunk_size=1<<16)`: chunked decode of
the stream from the current position; `file_name` is unused in the body. -/
def _extract_large_file (C : Codecs) (data : List Nat) (file_name : String)
    (chunkSize : Nat := 65536) : String :=
  _extract_large_file_go C chunkSize data 0 ""

/-- `pathlib.Path(base).suffix` for a base name: the final `"." + component`,
empty when there is no dot, when the name ends in a dot, or when the only dot
is the leading one of a hidden file. -/
def pathSuffix (base : String) : String :=
  match splitOnChar (Char.ofNat 46) base.data with
  | [] => ""
  | [_] => ""
  | first :: rest =>
    match rest.getLast? with
    | none => ""
    | some last =>
      if last.isEmpty then ""
      else if first.isEmpty && rest.length = 1 then ""
      else String.mk (Char.ofNat 46 :: last)

/-- `pathlib.Path(file_name or "").suffix.lower()` (tools.py line 68). -/
def suffixOf (file_name : Option String) : String :=
  lowerString (pathSuffix (file_name.getD ""))

/-- One member's contribution inside the zip branch of `process_archive`
(tools.py lines 125-144): skip directory and macOS-metadata entries, replace
members whose metadata size exceeds 10 MiB by a skip marker, turn per-member
read failures into a failure marker, replace over-50-MiB decoded content by a
content-size marker, and otherwise recurse through `extract` on the bytes. -/
def processZipMember (extract : List Nat → String → String) (m : ZipMember) :
    Option String :=
  if strEndsWith m.name "/" || strStartsWith m.name "__MACOSX/" then none
  else if 10 * 1024 * 1024 < m.fileSize then
    some ("【" ++ m.name ++ "】\n[文件过大跳过: " ++ toString (m.fileSize / 1024) ++ "KB]")
  else
    match m.read with
    | Except.error e => some ("【" ++ m.name ++ "】\n[提取失败: " ++ e ++ "]")
    | Except.ok content =>
      if MAX_BYTES < content.length then
        some ("【" ++ m.name ++ "】\n[内容过大: " ++ toString (content.length / 1024) ++ "KB]")
      else some ("【" ++ m.name ++ "】\n" ++ extract content m.name)

/-- `process_archive(fp, suffix)` (tools.py lines 119-171): open the
container for the given suffix and emit one labelled result per member.
Only the zip branch checks member sizes; rar members are extracted unless
directories, 7z members unconditionally, tar members when regular files.
A failure of the container itself yields a single top-level marker and the
accumulated member results are discarded; an empty result list yields the
explicit empty-archive marker.  `extract` is the recursive call into
`extract_text` on the member's bytes under the member's name. -/
def process_archive (C : Codecs) (extract : List Nat → String → String)
    (content : List Nat) (suffix : String) : String :=
  let parsed : Except String (List String) :=
    if suffix = ".zip" then
      (C.zipParse content).map (fun ms => ms.filterMap (processZipMember extract))
    else if suffix = ".rar" then
      (C.rarParse content).map (fun ms => ms.filterMap (fun m =>
        if m.isDir then none
        else some ("【" ++ m.filename ++ "】\n" ++ extract m.content m.filename)))
    else if suffix = ".7z" then
      (C.sevenZParse content).map (fun ms => ms.map (fun nb =>
        "【" ++ nb.1 ++ "】\n" ++ extract nb.2 nb.1))
    else if suffix = ".tar" ∨ suffix = ".gz" then
      (C.tarParse content).map (fun ms => ms.filterMap (fun m =>
        if m.isFile then some ("【" ++ m.name ++ "】\n" ++ extract m.content m.name)
        else none))
    else Except.ok []
  match parsed with
  | Except.error e => "[解压失败] " ++ e
  | Except.ok results =>
    if results.isEmpty then "[空压缩包]" else String.intercalate "\n\n" results

/-- An argument to `extract_text`: either a path (with the file's bytes when
it exists on disk — the path is modelled by its base name, which is what the
code derives from it), or an open binary stream with its optional `.name`
attribute, its seekability, and whether it has a `read` attribute at all. -/
inductive FileInput where
  | path (p : String) (onDisk : Option (List Nat))
  | stream (sname : Option String) (content : List Nat) (seekable : Bool) (hasRead : Bool)

/-- The `try`-body of `extract_text` after the source has been opened
(tools.py lines 68-108): compute the suffix, divert oversized seekable
non-archive inputs to the chunked reader, then dispatch on the suffix, with
plain-text best-effort decoding as the final fallback.  An `Except.error` is
a raised decoder exception, to be caught by the surrounding handler. -/
def extract_body (C : Codecs) (memberExtract : List Nat → String → String)
    (file_name : Option String) (content : List Nat) (seekable : Bool) :
    Except String String :=
  let suffix := suffixOf file_name
  if seekable && decide (MAX_BYTES < content.length)
      && !(decide (suffix ∈ archiveSuffixes)) then
    Except.ok (_extract_large_file C content (file_name.getD ""))
  else if suffix = ".pdf" then C.pdf content
  else if suffix = ".docx" then C.docx content
  else if suffix = ".csv" then C.csv content
  else if suffix = ".json" then C.jsonFmt content
  else if suffix = ".html" ∨ suffix = ".htm" ∨ suffix = ".php" then C.html content
  else if suffix = ".jpg" ∨ suffix = ".jpeg" ∨ suffix = ".png" then C.ocr content
  else if suffix ∈ archiveSuffixes then
    Except.ok (process_archive C memberExtract content suffix)
  else Except.ok (_safe_decode C content)

/-- `extract_text` with the recursion through archive members made explicit
by a fuel-indexed member extractor (tools.py line 141 etc. call
`extract_text(io.BytesIO(content), name)`).  At fuel 0 the model returns the
marker CPython produces when the recursion limit is hit inside the deepest
call's own handler. -/
def extract_text_step (C : Codecs) (memberExtract : List Nat → String → String)
    (file_obj : FileInput) (file_name : Option String) : String :=
  match file_obj with
  | FileInput.path p none => "[错误] 文件不存在: " ++ p
  | FileInput.path p (some content) =>
    match extract_body C memberExtract (some p) content true with
    | Except.ok t => t
    | Except.error e => "[读取失败] " ++ e
  | FileInput.stream sname content seekable hasRead =>
    if !hasRead then "[错误] 无效的文件对象"
    else
      match extract_body C memberExtract (file_name <|> sname) content seekable with
      | Except.ok t => t
      | Except.error e => "[读取失败] " ++ e

/-- The per-member recursive extractor at a given recursion budget: a member
is re-extracted as a fresh seekable `BytesIO` stream named by the member. -/
def memberExtract (C : Codecs) : Nat → List Nat → String → String
  | 0, _, _ => "[读取失败] maximum recursion depth exceeded"
  | Nat.succ fuel, bytes, nm =>
    extract_text_step C (memberExtract C fuel)
      (FileInput.stream none bytes true true) (some nm)

/-- `extract_text(file_obj, file_name=None, ...)` (tools.py lines 48-116). -/
def extract_text (C : Codecs) (fuel : Nat) (file_obj : FileInput)
    (file_name : Option String) : String :=
  extract_text_step C (memberExtract C fuel) file_obj file_name

/-! ## Configuration loading (config_helper.py) -/

/-- The generation parameters as parsed from `model_config.json`: `none`
means the key is absent from the file.  Numbers are rationals so that the
documented decimal bounds are exact. -/
structure RawConfig where
  temperature : Option ℚ
  top_p : Option ℚ
  repeat_penalty : Option ℚ
  num_ctx : Option ℤ
  seed : Option ℤ
  deriving DecidableEq, Repr

/-- The validated pydantic model `ModelConfig` (config_helper.py lines 24-37). -/
structure ModelConfig where
  temperature : ℚ
  top_p : ℚ
  repeat_penalty : ℚ
  num_ctx : ℤ
  seed : ℤ
  deriving DecidableEq, Repr

/-- The field defaults, equal to `DEFAULT_CONFIG` (lines 11-17). -/
def defaultModelConfig : ModelConfig :=
  { temperature := 7/10, top_p := 9/10, repeat_penalty := 11/10,
    num_ctx := 2048, seed := -1 }

/-- The `round_temp` validator: `round(v, 1)`, rounding to one decimal. -/
def roundTemp (q : ℚ) : ℚ := ((round (10 * q) : ℤ) : ℚ) / 10

/-- Pydantic construction `ModelConfig(**parsed)`: absent fields take their
defaults, each bound `ge`/`le` is checked (`seed` has no bounds), and any
violation raises a validation error (`none` here); on success the
`round_temp` validator post-processes the temperature. -/
def validateModelConfig (raw : RawConfig) : Option ModelConfig :=
  let t := raw.temperature.getD (7/10)
  let p := raw.top_p.getD (9/10)
  let rp := raw.repeat_penalty.getD (11/10)
  let nc := raw.num_ctx.getD 2048
  let sd := raw.seed.getD (-1)
  if 1/10 ≤ t ∧ t ≤ 2 ∧ 1/10 ≤ p ∧ p ≤ 1 ∧ 1 ≤ rp ∧ rp ≤ 2
      ∧ 512 ≤ nc ∧ nc ≤ 128000 then
    some { temperature := roundTemp t, top_p := p, repeat_penalty := rp,
           num_ctx := nc, seed := sd }
  else none

/-- `ModelConfig.load()` (config_helper.py lines 39-46): when the file exists,
parse and validate it, falling back to the all-defaults instance on any
exception (bad JSON or validation error); when absent, return the defaults.
`parsed` is the outcome of `json.loads` on the file's text. -/
def ModelConfig.load (fileExists : Bool) (parsed : Except String RawConfig) :
    ModelConfig :=
  if fileExists then
    match parsed with
    | Except.ok raw => (validateModelConfig raw).getD defaultModelConfig
    | Except.error _ => defaultModelConfig
  else defaultModelConfig

/-- The unvalidated config dict returned by `load_model_config`. -/
structure ConfigDict where
  temperature : ℚ
  top_p : ℚ
  repeat_penalty : ℚ
  num_ctx : ℤ
  seed : ℤ
  deriving DecidableEq, Repr

/-- `load_model_config()` (config_helper.py lines 77-83):
`{**DEFAULT_CONFIG, **json.loads(...)}` when the file exists and parses —
file values override the defaults with no bounds checking — and the defaults
on a missing or unparsable file. -/
def load_model_config (fileExists : Bool) (parsed : Except String RawConfig) :
    ConfigDict :=
  if fileExists then
    match parsed with
    | Except.ok raw =>
      { temperature := raw.temperature.getD (7/10),
        top_p := raw.top_p.getD (9/10),
        repeat_penalty := raw.repeat_penalty.getD (11/10),
        num_ctx := raw.num_ctx.getD 2048,
        seed := raw.seed.getD (-1) }
    | Except.error _ =>
      { temperature := 7/10, top_p := 9/10, repeat_penalty := 11/10,
        num_ctx := 2048, seed := -1 }
  else
    { temperature := 7/10, top_p := 9/10, repeat_penalty := 11/10,
      num_ctx := 2048, seed := -1 }

/-! ## History saving (history_helper.py lines 25-65) -/

/-- A chat message. -/
structure Message where
  role : String
  content : String
  deriving DecidableEq, Repr

/-- The payload written to a history file. -/
structure HistoryData where
  messages : List Message
  file_context : String
  config : String
  deriving DecidableEq, Repr

/-- The history directory: named `.json` records and named `.tmp` files. -/
structure HistDir where
  files : List (String × HistoryData)
  temps : List (String × HistoryData)
  deriving DecidableEq, Repr

/-- Create-or-overwrite an entry under a key. -/
def setEntry (l : List (String × HistoryData)) (k : String) (v : HistoryData) :
    List (String × HistoryData) :=
  l.filter (fun kv => decide (kv.1 ≠ k)) ++ [(k, v)]

/-- Remove an entry (no-op when absent). -/
def removeEntry (l : List (String × HistoryData)) (k : String) :
    List (String × HistoryData) :=
  l.filter (fun kv => decide (kv.1 ≠ k))

/-- `save_history(messages, file_context, model_config, name=None)`
(history_helper.py lines 25-65): empty message lists return `""` at once,
touching nothing.  Otherwise the record is dumped to `.{name}.tmp` and
atomically moved onto `{name}.json` (POSIX `replace` overwrites); on a
failure of either step the handler removes the temp file and re-raises.
`genName` stands for `generate_history_name(messages)` (timestamp, sanitized
snippet and random suffix are external inputs); `failDump`/`failReplace`
say whether the two file operations raise. -/
def save_history (failDump failReplace : Bool) (messages : List Message)
    (file_context : String) (config : String) (name : Option String)
    (genName : String) (dir : HistDir) : HistDir × Except String String :=
  if messages.isEmpty then (dir, Except.ok "")
  else
    let n := name.getD genName
    let tmpName := "." ++ n ++ ".tmp"
    let data : HistoryData :=
      { messages := messages, file_context := file_context, config := config }
    if failDump then
      ({ dir with temps := removeEntry dir.temps tmpName }, Except.error "dump failed")
    else
      let dir1 : HistDir := { dir with temps := setEntry dir.temps tmpName data }
      if failReplace then
        ({ dir1 with temps := removeEntry dir1.temps tmpName },
         Except.error "replace failed")
      else
        ({ files := setEntry dir1.files n data,
           temps := removeEntry dir1.temps tmpName }, Except.ok n)

/-! ## Concrete decoder instantiations used to exercise the model -/

/-- Decoders whose outcomes are fixed: utf-8 "succeeds", every structured
decoder raises `boom`, the tar container wraps its input as one regular
member.  Used to evaluate the extraction pipeline at concrete inputs. -/
def testCodecs : Codecs where
  utf8 := fun _ => some "DECODED"
  gbk := fun _ => none
  latin1 := fun _ => none
  utf8Ignore := fun _ => ""
  pdf := fun _ => Except.error "boom"
  docx := fun _ => Except.error "boom"
  csv := fun _ => Except.error "boom"
  jsonFmt := fun _ => Except.error "boom"
  html := fun _ => Except.error "boom"
  ocr := fun _ => Except.error "boom"
  zipParse := fun _ => Except.ok []
  rarParse := fun _ => Except.ok []
  sevenZParse := fun _ => Except.ok []
  tarParse := fun bs => Except.ok [{ name := "member.bin", isFile := true, content := bs }]

/-- A concrete external-deletion pattern: the file `b.txt` was removed from
the upload directory behind the store's back. -/
def deleted0 : String → Bool := fun n => n == "b.txt"

/-- A tar member one byte over the 10 MiB per-member ceiling. -/
def bigBytes : List Nat := List.replicate (10 * 1024 * 1024 + 1) 0

/-- A plain-text payload one byte over the 50 MiB whole-input ceiling. -/
def hugeBytes : List Nat := List.replicate (50 * 1024 * 1024 + 1) 65

/-- A zip archive holding one member over the per-member ceiling and one
normal member, as seen through `zipfile`. -/
def zipCodecs : Codecs :=
  { testCodecs with
    zipParse := fun _ => Except.ok
      [{ name := "big.bin", fileSize := 10 * 1024 * 1024 + 1, read := Except.ok [] },
       { name := "ok.txt", fileSize := 3, read := Except.ok [65, 66] }] }

/-! ## Theorems -/

/-- C1: with dedup-by-content enabled, a new record whose content key already
occurs in the existing list is a no-op (the existing list is returned
unchanged), and in every case the result of `add_or_replace_file_with_content`
again has pairwise-distinct content keys when the existing list does. -/
theorem add_or_replace_key_uniqueness (new_file : FileRec) (existing : List FileRec)
    (hdist : (existing.map (fun f => f.key)).Nodup) :
    (existing.any (fun f => decide (f.key = new_file.key)) = true →
      add_or_replace_file_with_content new_file existing true = existing)
    ∧ ((add_or_replace_file_with_content new_file existing true).map
        (fun f => f.key)).Nodup := by
  constructor
  · intro h
    simp [add_or_replace_file_with_content, h]
  · by_cases h : existing.any (fun f => decide (f.key = new_file.key)) = true
    · simpa [add_or_replace_file_with_content, h] using hdist
    · have hres : add_or_replace_file_with_content new_file existing true
          = existing.filter (fun f => decide (f.filename ≠ new_file.filename))
            ++ [new_file] := by
        simp only [add_or_replace_file_with_content, Bool.true_and,
          Bool.not_eq_true] at *
        rw [if_neg]
        simp [h]
      rw [hres, List.map_append]
      refine List.Nodup.append ?_ (by simp) ?_
      · exact hdist.sublist (List.Sublist.map _ (List.filter_sublist existing))
      · intro a ha hb
        simp only [List.map_cons, List.map_nil, List.mem_singleton] at hb
        subst hb
        simp only [List.mem_map, List.mem_filter] at ha
        obtain ⟨f, ⟨hf, _⟩, hfk⟩ := ha
        exact h (List.any_eq_true.mpr ⟨f, hf, by simp [hfk]⟩)

/-- Witness for C1 at a store holding one record `⟨"b", "H1"⟩` and a new
record with the same key `"H1"` under another filename. -/
theorem add_or_replace_key_uniqueness_witness :
    (([(⟨"b", "H1"⟩ : FileRec)]).any
        (fun f => decide (f.key = (⟨"a", "H1"⟩ : FileRec).key)) = true →
      add_or_replace_file_with_content ⟨"a", "H1"⟩ [⟨"b", "H1"⟩] true = [⟨"b", "H1"⟩])
    ∧ ((add_or_replace_file_with_content ⟨"a", "H1"⟩ [⟨"b", "H1"⟩] true).map
        (fun f => f.key)).Nodup :=
  add_or_replace_key_uniqueness ⟨"a", "H1"⟩ [⟨"b", "H1"⟩] (by decide)

/-- C3: a new record whose key is fresh but whose filename collides with
existing records replaces them — the result holds exactly one record with
that filename and it carries the new key; in particular
`[{a.txt, H1}]` plus `{a.txt, H2}` gives `[{a.txt, H2}]`. -/
theorem add_or_replace_filename_replacement (new_file : FileRec)
    (existing : List FileRec)
    (hkey : ∀ f ∈ existing, f.key ≠ new_file.key)
    (hname : ∃ f ∈ existing, f.filename = new_file.filename) :
    ((add_or_replace_file_with_content new_file existing true).filter
        (fun f => decide (f.filename = new_file.filename)) = [new_file])
    ∧ add_or_replace_file_with_content (⟨"a.txt", "H2"⟩ : FileRec)
        [⟨"a.txt", "H1"⟩] true = [⟨"a.txt", "H2"⟩] := by
  refine ⟨?_, by decide⟩
  have h1 : existing.any (fun f => decide (f.key = new_file.key)) = false := by
    rw [List.any_eq_false]
    intro f hf
    simpa using hkey f hf
  have hres : add_or_replace_file_with_content new_file existing true
      = existing.filter (fun f => decide (f.filename ≠ new_file.filename))
        ++ [new_file] := by
    simp [add_or_replace_file_with_content, h1]
  rw [hres, List.filter_append, List.filter_filter]
  have h2 : (existing.filter (fun f =>
      decide (f.filename = new_file.filename)
        && decide (f.filename ≠ new_file.filename))) = [] := by
    rw [List.filter_eq_nil_iff]
    intro f _
    by_cases hf : f.filename = new_file.filename <;> simp [hf]
  rw [h2]
  simp

/-- Witness for C3 at the spec's scenario store. -/
theorem add_or_replace_filename_replacement_witness :
    ((add_or_replace_file_with_content (⟨"a.txt", "H2"⟩ : FileRec)
        [⟨"a.txt", "H1"⟩] true).filter
        (fun f => decide (f.filename = (⟨"a.txt", "H2"⟩ : FileRec).filename))
      = [⟨"a.txt", "H2"⟩])
    ∧ add_or_replace_file_with_content (⟨"a.txt", "H2"⟩ : FileRec)
        [⟨"a.txt", "H1"⟩] true = [⟨"a.txt", "H2"⟩] :=
  add_or_replace_filename_replacement ⟨"a.txt", "H2"⟩ [⟨"a.txt", "H1"⟩]
    (by decide) ⟨⟨"a.txt", "H1"⟩, by decide, by decide⟩

/-- Batch loop invariant: if the accumulated result has pairwise-distinct
keys and every accumulated key is in the key view, the final result has
pairwise-distinct keys (the view only ever grows, by each appended key). -/
theorem add_or_replace_batch_go_key_nodup (new_files : List FileRec) :
    ∀ (result : List FileRec) (keys : List String),
      ((result.map (fun f => f.key)).Nodup) →
      (∀ f ∈ result, f.key ∈ keys) →
      ((add_or_replace_batch_go new_files result keys).map (fun f => f.key)).Nodup := by
  induction new_files with
  | nil =>
    intro result keys h1 _
    simpa [add_or_replace_batch_go] using h1
  | cons nf rest ih =>
    intro result keys h1 h2
    by_cases hk : nf.key ∈ keys
    · rw [add_or_replace_batch_go, if_pos hk]
      exact ih result keys h1 h2
    · rw [add_or_replace_batch_go, if_neg hk]
      apply ih
      · rw [List.map_append]
        refine List.Nodup.append ?_ (by simp) ?_
        · exact h1.sublist (List.Sublist.map _ (List.filter_sublist result))
        · intro a ha hb
          simp only [List.map_cons, List.map_nil, List.mem_singleton] at hb
          subst hb
          simp only [List.mem_map, List.mem_filter] at ha
          obtain ⟨f, ⟨hf, _⟩, hfk⟩ := ha
          exact hk (hfk ▸ h2 f hf)
      · intro f hf
        rcases List.mem_append.mp hf with hf | hf
        · exact List.mem_append_left _ (h2 f (List.mem_of_mem_filter hf))
        · simp only [List.mem_singleton] at hf
          subst hf
          simp

/-- Batch loop invariant for the records added from the batch itself: among
result members that do not come from the original list `E`, keys are
pairwise distinct, because every accumulated key is in the view and each
appended key is fresh for the view. -/
theorem add_or_replace_batch_go_added_nodup (E : List FileRec)
    (new_files : List FileRec) :
    ∀ (result : List FileRec) (keys : List String),
      (((result.filter (fun f => decide (f ∉ E))).map (fun f => f.key)).Nodup) →
      (∀ f ∈ result, f.key ∈ keys) →
      (((add_or_replace_batch_go new_files result keys).filter
          (fun f => decide (f ∉ E))).map (fun f => f.key)).Nodup := by
  induction new_files with
  | nil =>
    intro result keys h1 _
    simpa [add_or_replace_batch_go] using h1
  | cons nf rest ih =>
    intro result keys h1 h2
    by_cases hk : nf.key ∈ keys
    · rw [add_or_replace_batch_go, if_pos hk]
      exact ih result keys h1 h2
    · rw [add_or_replace_batch_go, if_neg hk]
      apply ih
      · rw [List.filter_append, List.map_append]
        refine List.Nodup.append ?_ ?_ ?_
        · refine h1.sublist (List.Sublist.map _ ?_)
          exact List.Sublist.filter _ (List.filter_sublist result)
        · by_cases hE : nf ∈ E <;> simp [hE]
        · intro a ha hb
          simp only [List.mem_map, List.mem_filter, List.mem_singleton] at ha hb
          obtain ⟨w, ⟨hw, _⟩, hwk⟩ := hb
          subst hw
          obtain ⟨f, ⟨⟨hff, _⟩, _⟩, hfk⟩ := ha
          exact hk (hwk ▸ hfk ▸ h2 f hff)
      · intro f hf
        rcases List.mem_append.mp hf with hf | hf
        · exact List.mem_append_left _ (h2 f (List.mem_of_mem_filter hf))
        · simp only [List.mem_singleton] at hf
          subst hf
          simp

/-- C4: the batch add (i) coincides with the single add on a one-element
batch (same per-item policy, evaluated against the `content_map` view built
once from the existing list and updated in program order, so there is no
read-after-write race), (ii) preserves pairwise-distinct content keys of the
whole store, and (iii) unconditionally leaves at most one record per content
key among the records added from the incoming batch itself (batch-internal
content duplicates collapse). -/
theorem add_or_replace_batch_policy :
    (∀ (nf : FileRec) (existing : List FileRec),
      add_or_replace_file_with_content_batch [nf] existing
        = add_or_replace_file_with_content nf existing true)
    ∧ (∀ (new_files existing : List FileRec),
        (existing.map (fun f => f.key)).Nodup →
        ((add_or_replace_file_with_content_batch new_files existing).map
            (fun f => f.key)).Nodup)
    ∧ (∀ (new_files existing : List FileRec),
        (((add_or_replace_file_with_content_batch new_files existing).filter
            (fun f => decide (f ∉ existing))).map (fun f => f.key)).Nodup) := by
  refine ⟨?_, ?_, ?_⟩
  · intro nf existing
    by_cases h : nf.key ∈ existing.map (fun f => f.key)
    · have h2 : existing.any (fun f => decide (f.key = nf.key)) = true := by
        rw [List.any_eq_true]
        obtain ⟨f, hf, hfk⟩ := List.mem_map.mp h
        exact ⟨f, hf, by simp [hfk]⟩
      simp [add_or_replace_file_with_content_batch, add_or_replace_batch_go, h,
        add_or_replace_file_with_content, h2]
    · have h2 : existing.any (fun f => decide (f.key = nf.key)) = false := by
        rw [List.any_eq_false]
        intro f hf
        simp only [decide_eq_true_eq]
        exact fun hfk => h (List.mem_map.mpr ⟨f, hf, hfk⟩)
      simp [add_or_replace_file_with_content_batch, add_or_replace_batch_go, h,
        add_or_replace_file_with_content, h2]
  · intro new_files existing hdist
    exact add_or_replace_batch_go_key_nodup new_files existing _ hdist
      (fun f hf => List.mem_map.mpr ⟨f, hf, rfl⟩)
  · intro new_files existing
    have hnil : existing.filter (fun f => decide (f ∉ existing)) = [] := by
      rw [List.filter_eq_nil_iff]
      intro f hf
      simp [hf]
    apply add_or_replace_batch_go_added_nodup existing new_files existing _
    · rw [hnil]
      simp
    · exact fun f hf => List.mem_map.mpr ⟨f, hf, rfl⟩

/-- Witness for C4 at a batch carrying two records with the same content key
against an empty store: the duplicate collapses to a single record. -/
theorem add_or_replace_batch_policy_witness :
    ((add_or_replace_file_with_content_batch
        [⟨"a", "K1"⟩, ⟨"b", "K1"⟩] []).map (fun f => f.key)).Nodup
    ∧ add_or_replace_file_with_content_batch
        [⟨"a", "K1"⟩, ⟨"b", "K1"⟩] [] = [⟨"a", "K1"⟩] :=
  ⟨add_or_replace_batch_policy.2.1 [⟨"a", "K1"⟩, ⟨"b", "K1"⟩] [] (by decide),
   by decide⟩

/-- C2 (counterexample): with the canonical index holding `"old"`, a failure
of the final rename step leaves the canonical file deleted (the code unlinks
it before renaming), and the exception is swallowed rather than surfaced —
against the claim that the failure is surfaced and the canonical file keeps
its previous content. -/
theorem save_uploaded_files_fs_counterexample :
    (save_uploaded_files_fs (fun s => decide (s = PersistStep.rename))
        "leftover" "new" { temp := none, canonical := some "old" }).1.canonical
      = none
    ∧ (save_uploaded_files_fs (fun s => decide (s = PersistStep.rename))
        "leftover" "new" { temp := none, canonical := some "old" }).2 = false :=
  ⟨rfl, rfl⟩

/-- C2 (amended): `save_uploaded_files` writes the serialized records to a
temp file and installs them by unlink-then-rename, so the canonical index is
never half-written: after any run it holds its previous content, the new
content, or is absent.  On every failure the temp file is cleaned up and the
run returns normally (the exception is logged and swallowed, never surfaced);
a failure before the old index is removed preserves the previous canonical
content, and a fully successful run installs the new content. -/
theorem save_uploaded_files_fs_behavior (fails : PersistStep → Bool)
    (leftoverTemp serialized : String) (fs : IndexFS) :
    (save_uploaded_files_fs fails leftoverTemp serialized fs).2 = false
    ∧ (save_uploaded_files_fs fails leftoverTemp serialized fs).1.temp = none
    ∧ ((save_uploaded_files_fs fails leftoverTemp serialized fs).1.canonical
          = fs.canonical
        ∨ (save_uploaded_files_fs fails leftoverTemp serialized fs).1.canonical
          = none
        ∨ (save_uploaded_files_fs fails leftoverTemp serialized fs).1.canonical
          = some serialized)
    ∧ (fails PersistStep.dump = true →
        (save_uploaded_files_fs fails leftoverTemp serialized fs).1.canonical
          = fs.canonical)
    ∧ ((∀ s, fails s = false) →
        save_uploaded_files_fs fails leftoverTemp serialized fs
          = ({ temp := none, canonical := some serialized }, false)) := by
  by_cases hd : fails PersistStep.dump
  · have hres : save_uploaded_files_fs fails leftoverTemp serialized fs
        = ({ fs with temp := none }, false) := by
      simp [save_uploaded_files_fs, persistCleanup, hd]
    rw [hres]
    exact ⟨rfl, rfl, Or.inl rfl, fun _ => rfl,
      fun hall => absurd (hall PersistStep.dump) (by simp [hd])⟩
  · by_cases hu : (fs.canonical.isSome && fails PersistStep.unlinkOld) = true
    · have hres : save_uploaded_files_fs fails leftoverTemp serialized fs
          = ({ fs with temp := none }, false) := by
        simp only [save_uploaded_files_fs, persistCleanup, hd]
        simp [hu]
      rw [hres]
      refine ⟨rfl, rfl, Or.inl rfl, fun h => absurd h hd, fun hall => ?_⟩
      have := (Bool.and_eq_true _ _).mp hu
      exact absurd (hall PersistStep.unlinkOld) (by simp [this.2])
    · by_cases hr : fails PersistStep.rename
      · have hres : save_uploaded_files_fs fails leftoverTemp serialized fs
            = ({ temp := none, canonical := none }, false) := by
          simp only [save_uploaded_files_fs, persistCleanup, hd]
          simp [hu, hr]
        rw [hres]
        exact ⟨rfl, rfl, Or.inr (Or.inl rfl), fun h => absurd h hd,
          fun hall => absurd (hall PersistStep.rename) (by simp [hr])⟩
      · have hres : save_uploaded_files_fs fails leftoverTemp serialized fs
            = ({ temp := none, canonical := some serialized }, false) := by
          simp only [save_uploaded_files_fs, persistCleanup, hd]
          simp [hu, hr]
        rw [hres]
        exact ⟨rfl, rfl, Or.inr (Or.inr rfl), fun h => absurd h hd, fun _ => rfl⟩

/-- Witness for C2 (amended) at the all-successful run over an index holding
`"old"`. -/
theorem save_uploaded_files_fs_behavior_witness :
    (save_uploaded_files_fs (fun _ : PersistStep => false) "leftover" "new"
        { temp := none, canonical := some "old" }).2 = false
    ∧ (save_uploaded_files_fs (fun _ : PersistStep => false) "leftover" "new"
        { temp := none, canonical := some "old" }).1.temp = none
    ∧ ((save_uploaded_files_fs (fun _ : PersistStep => false) "leftover" "new"
          { temp := none, canonical := some "old" }).1.canonical
          = ({ temp := none, canonical := some "old" } : IndexFS).canonical
        ∨ (save_uploaded_files_fs (fun _ : PersistStep => false) "leftover" "new"
          { temp := none, canonical := some "old" }).1.canonical = none
        ∨ (save_uploaded_files_fs (fun _ : PersistStep => false) "leftover" "new"
          { temp := none, canonical := some "old" }).1.canonical = some "new")
    ∧ ((fun _ : PersistStep => false) PersistStep.dump = true →
        (save_uploaded_files_fs (fun _ : PersistStep => false) "leftover" "new"
          { temp := none, canonical := some "old" }).1.canonical
          = ({ temp := none, canonical := some "old" } : IndexFS).canonical)
    ∧ ((∀ s, (fun _ : PersistStep => false) s = false) →
        save_uploaded_files_fs (fun _ : PersistStep => false) "leftover" "new"
          { temp := none, canonical := some "old" }
          = ({ temp := none, canonical := some "new" }, false)) :=
  save_uploaded_files_fs_behavior (fun _ : PersistStep => false) "leftover" "new"
    { temp := none, canonical := some "old" }

/-- Bounds of the rounded temperature: rounding to one decimal keeps a value
inside `[0.1, 2]` inside `[0.1, 2]`, since the bounds are grid points. -/
theorem roundTemp_bounds (q : ℚ) (h1 : 1/10 ≤ q) (h2 : q ≤ 2) :
    1/10 ≤ roundTemp q ∧ roundTemp q ≤ 2 := by
  have hfl : round (10 * q) = ⌊10 * q + 1/2⌋ := round_eq _
  have hlow : (1 : ℤ) ≤ round (10 * q) := by
    rw [hfl]
    apply Int.le_floor.mpr
    push_cast
    linarith
  have hfloorle : ((⌊10 * q + 1/2⌋ : ℤ) : ℚ) ≤ 10 * q + 1/2 := Int.floor_le _
  have hhigh : round (10 * q) ≤ 20 := by
    rw [hfl]
    have h21 : ((⌊10 * q + 1/2⌋ : ℤ) : ℚ) < 21 := by linarith
    exact Int.lt_add_one_iff.mp (by exact_mod_cast h21)
  constructor
  · have hc : (1 : ℚ) ≤ ((round (10 * q) : ℤ) : ℚ) := by exact_mod_cast hlow
    unfold roundTemp
    linarith
  · have hc : ((round (10 * q) : ℤ) : ℚ) ≤ 20 := by exact_mod_cast hhigh
    unfold roundTemp
    linarith

/-- C9 (counterexample): `load_model_config` merges the parsed JSON over the
defaults with no bounds checking, so a file holding `temperature: 99` yields
a configuration whose temperature is 99, outside the documented 0.1–2.0
bound — against the claim that loading always yields in-bounds values. -/
theorem load_model_config_counterexample :
    (load_model_config true (Except.ok
        { temperature := some 99, top_p := none, repeat_penalty := none,
          num_ctx := none, seed := none })).temperature = 99
    ∧ ¬((load_model_config true (Except.ok
        { temperature := some 99, top_p := none, repeat_penalty := none,
          num_ctx := none, seed := none })).temperature ≤ 2) :=
  ⟨rfl, by decide⟩

/-- C9 (amended): the validated loader `ModelConfig.load` always yields
values within the documented bounds (temperature 0.1–2.0, top-p 0.1–1.0,
repeat penalty 1.0–2.0, context window 512–128000; the seed is an
unconstrained integer defaulting to -1), falling back to the whole default
configuration when the file is missing, unparsable, or fails validation, and
it never raises; the dict loader `load_model_config` also never raises and
falls back to the defaults on a missing or unparsable file, but passes parsed
values through without bounds checking. -/
theorem model_config_load_bounds (fileExists : Bool)
    (parsed : Except String RawConfig) :
    (1/10 ≤ (ModelConfig.load fileExists parsed).temperature
      ∧ (ModelConfig.load fileExists parsed).temperature ≤ 2
      ∧ 1/10 ≤ (ModelConfig.load fileExists parsed).top_p
      ∧ (ModelConfig.load fileExists parsed).top_p ≤ 1
      ∧ 1 ≤ (ModelConfig.load fileExists parsed).repeat_penalty
      ∧ (ModelConfig.load fileExists parsed).repeat_penalty ≤ 2
      ∧ 512 ≤ (ModelConfig.load fileExists parsed).num_ctx
      ∧ (ModelConfig.load fileExists parsed).num_ctx ≤ 128000)
    ∧ (∀ e, ModelConfig.load fileExists (Except.error e) = defaultModelConfig)
    ∧ ModelConfig.load false parsed = defaultModelConfig
    ∧ (∀ e, load_model_config true (Except.error e)
        = { temperature := 7/10, top_p := 9/10, repeat_penalty := 11/10,
            num_ctx := 2048, seed := -1 }) := by
  refine ⟨?_, ?_, ?_, ?_⟩
  · cases fileExists with
    | false =>
      have h : ModelConfig.load false parsed = defaultModelConfig := rfl
      rw [h]
      norm_num [defaultModelConfig]
    | true =>
      cases parsed with
      | error e =>
        have h : ModelConfig.load true (Except.error e) = defaultModelConfig := rfl
        rw [h]
        norm_num [defaultModelConfig]
      | ok raw =>
        have h : ModelConfig.load true (Except.ok raw)
            = (validateModelConfig raw).getD defaultModelConfig := rfl
        rw [h]
        simp only [validateModelConfig]
        by_cases hv : 1/10 ≤ raw.temperature.getD (7/10)
            ∧ raw.temperature.getD (7/10) ≤ 2
            ∧ 1/10 ≤ raw.top_p.getD (9/10) ∧ raw.top_p.getD (9/10) ≤ 1
            ∧ 1 ≤ raw.repeat_penalty.getD (11/10)
            ∧ raw.repeat_penalty.getD (11/10) ≤ 2
            ∧ 512 ≤ raw.num_ctx.getD 2048 ∧ raw.num_ctx.getD 2048 ≤ 128000
        · rw [if_pos hv]
          simp only [Option.getD_some]
          obtain ⟨v1, v2, v3, v4, v5, v6, v7, v8⟩ := hv
          obtain ⟨r1, r2⟩ := roundTemp_bounds _ v1 v2
          exact ⟨r1, r2, v3, v4, v5, v6, v7, v8⟩
        · rw [if_neg hv]
          simp only [Option.getD_none]
          norm_num [defaultModelConfig]
  · intro e
    cases fileExists <;> rfl
  · rfl
  · intro e
    rfl

/-- C10: `save_history` called with an empty message list returns the empty
string (not a generated name), creates neither a history file nor a temp
file, and leaves the history directory unchanged. -/
theorem save_history_empty_noop (failDump failReplace : Bool)
    (file_context config : String) (name : Option String) (genName : String)
    (dir : HistDir) (messages : List Message) (h : messages = []) :
    save_history failDump failReplace messages file_context config name genName dir
      = (dir, Except.ok "") := by
  subst h
  rfl

/-- Witness for C10 on a directory holding one saved history. -/
theorem save_history_empty_noop_witness :
    save_history false false [] "ctx" "cfg" none "gen"
        { files := [("earlier", { messages := [⟨"user", "hi"⟩],
                                  file_context := "", config := "" })],
          temps := [] }
      = ({ files := [("earlier", { messages := [⟨"user", "hi"⟩],
                                   file_context := "", config := "" })],
           temps := [] }, Except.ok "") :=
  save_history_empty_noop false false "ctx" "cfg" none "gen" _ [] rfl

/-- Membership is invariant under mtime insertion. -/
theorem mem_insertByMtime (f g : DiskFile) (l : List DiskFile) :
    g ∈ insertByMtime f l ↔ g = f ∨ g ∈ l := by
  induction l with
  | nil => simp [insertByMtime]
  | cons a as ih =>
    rw [insertByMtime]
    by_cases h : f.mtime ≤ a.mtime
    · rw [if_pos h]
      simp only [List.mem_cons]
    · rw [if_neg h]
      simp only [List.mem_cons, ih]
      tauto

/-- Membership is invariant under the mtime sort. -/
theorem mem_sortByMtime (f : DiskFile) (l : List DiskFile) :
    f ∈ sortByMtime l ↔ f ∈ l := by
  induction l with
  | nil => simp [sortByMtime]
  | cons a as ih =>
    rw [sortByMtime, mem_insertByMtime]
    simp [ih]

/-- C5: persisting a record list whose backing files all sit in the upload
directory with the record's content (keys being the content hashes, filenames
not dot-prefixed, directory names unique) and then loading the directory
after some backing files were externally deleted round-trips exactly the
surviving records: every persisted entry whose file survived reappears with
the same filename, content key and size, and every entry whose file was
deleted is absent from the loaded list — the filesystem, not the persisted
index, decides presence. -/
theorem persist_load_roundtrip (hash : List Nat → String)
    (files : List UploadRec) (disk : List DiskFile) (deleted : String → Bool)
    (hnames : (disk.map (fun d => d.name)).Nodup)
    (hkeys : ∀ r ∈ files, r.key = hash r.content)
    (hnodot : ∀ r ∈ files, strStartsWith r.filename "." = false)
    (hback : ∀ r ∈ files, ∃ d ∈ disk, d.name = r.filename ∧ d.content = r.content) :
    (∀ e ∈ save_uploaded_files_serialize disk files, deleted e.filename = false →
      ∃ l ∈ load_uploaded_files hash (disk.filter (fun d => !(deleted d.name))),
        l.filename = e.filename ∧ l.key = e.key ∧ l.size = e.size)
    ∧ (∀ e ∈ save_uploaded_files_serialize disk files, deleted e.filename = true →
      ∀ l ∈ load_uploaded_files hash (disk.filter (fun d => !(deleted d.name))),
        l.filename ≠ e.filename) := by
  constructor
  · intro e he hdel
    obtain ⟨r, hr, hre⟩ := List.mem_map.mp he
    obtain ⟨d, hd, hdn, hdc⟩ := hback r hr
    have hfind : disk.find? (fun d' => decide (d'.name = r.filename)) = some d := by
      have hsome : (disk.find? (fun d' => decide (d'.name = r.filename))).isSome :=
        List.find?_isSome.mpr ⟨d, hd, by simp [hdn]⟩
      obtain ⟨d2, hd2⟩ := Option.isSome_iff_exists.mp hsome
      have hd2m : d2 ∈ disk := List.mem_of_find?_eq_some hd2
      have hd2n : d2.name = r.filename := by
        have := List.find?_some hd2
        simpa using this
      have : d2 = d :=
        List.inj_on_of_nodup_map hnames hd2m hd (by rw [hd2n, hdn])
      rw [hd2] at *
      exact congrArg _ this
    have hef : e.filename = r.filename := by rw [← hre]
    have hek : e.key = r.key := by rw [← hre]
    have hes : e.size = d.content.length := by
      rw [← hre]
      simp only [save_uploaded_files_serialize]
      rw [hfind]
    have hdmem : d ∈ disk.filter (fun d' => !(deleted d'.name)) := by
      rw [List.mem_filter]
      refine ⟨hd, ?_⟩
      rw [hdn, ← hef, hdel]
      rfl
    have hdsurv : d ∈ (sortByMtime (disk.filter (fun d' => !(deleted d'.name)))).filter
        (fun f => !(strStartsWith f.name ".")) := by
      rw [List.mem_filter, mem_sortByMtime]
      refine ⟨hdmem, ?_⟩
      rw [hdn, hnodot r hr]
      rfl
    refine ⟨{ filename := d.name, key := hash d.content, content := d.content,
              size := d.content.length, timestamp := d.mtime }, ?_, ?_, ?_, ?_⟩
    · exact List.mem_map.mpr ⟨d, hdsurv, rfl⟩
    · rw [hdn, hef]
    · rw [hdc, hek, hkeys r hr]
    · rw [hes]
  · intro e he hdel l hl hname
    obtain ⟨r, hr, hre⟩ := List.mem_map.mp he
    obtain ⟨d, hd, hld⟩ := List.mem_map.mp hl
    have hdm : d ∈ disk.filter (fun d' => !(deleted d'.name)) := by
      have := (List.mem_filter.mp hd).1
      rwa [mem_sortByMtime] at this
    have hnd : (!(deleted d.name)) = true := (List.mem_filter.mp hdm).2
    have hlf : l.filename = d.name := by rw [← hld]
    rw [hlf] at hname
    rw [hname, hdel] at hnd
    simp at hnd

/-- Witness for C5: two files persisted, `b.txt` externally deleted before
the reload; the hash is a concrete length-rendering function. -/
theorem persist_load_roundtrip_witness :
    (∀ e ∈ save_uploaded_files_serialize
        [⟨"a.txt", [1, 2], 0⟩, ⟨"b.txt", [7], 1⟩]
        [⟨"a.txt", "2", [1, 2]⟩, ⟨"b.txt", "1", [7]⟩],
      deleted0 e.filename = false →
      ∃ l ∈ load_uploaded_files (fun bs => toString bs.length)
          (List.filter (fun d => !(deleted0 d.name))
            [⟨"a.txt", [1, 2], 0⟩, ⟨"b.txt", [7], 1⟩]),
        l.filename = e.filename ∧ l.key = e.key ∧ l.size = e.size)
    ∧ (∀ e ∈ save_uploaded_files_serialize
        [⟨"a.txt", [1, 2], 0⟩, ⟨"b.txt", [7], 1⟩]
        [⟨"a.txt", "2", [1, 2]⟩, ⟨"b.txt", "1", [7]⟩],
      deleted0 e.filename = true →
      ∀ l ∈ load_uploaded_files (fun bs => toString bs.length)
          (List.filter (fun d => !(deleted0 d.name))
            [⟨"a.txt", [1, 2], 0⟩, ⟨"b.txt", [7], 1⟩]),
        l.filename ≠ e.filename) :=
  persist_load_roundtrip (fun bs => toString bs.length)
    [⟨"a.txt", "2", [1, 2]⟩, ⟨"b.txt", "1", [7]⟩]
    [⟨"a.txt", [1, 2], 0⟩, ⟨"b.txt", [7], 1⟩] deleted0
    (by decide) (by decide) (by decide) (by decide)

/-- One-step unfolding of the chunked reader's truncation behaviour: as soon
as the remaining bytes push the running total over the ceiling, the output
gains the truncation marker as its final segment. -/
theorem extract_large_go_truncates (C : Codecs) (chunkSize : Nat)
    (hcs : 0 < chunkSize) :
    ∀ (n : Nat) (data : List Nat), data.length ≤ n → ∀ (total : Nat) (acc : String),
      data ≠ [] → MAX_BYTES < total + data.length →
      ∃ s, _extract_large_file_go C chunkSize data total acc
        = s ++ "\n[内容过长，已截断]" := by
  intro n
  induction n with
  | zero =>
    intro data hlen total acc hne _
    exact absurd (List.eq_nil_of_length_eq_zero (Nat.le_zero.mp hlen)) hne
  | succ n ih =>
    intro data hlen total acc hne hbig
    have hpos : 0 < data.length := List.length_pos.mpr hne
    have htake : ¬((data.take chunkSize).length = 0) := by
      rw [List.length_take]
      omega
    rw [_extract_large_file_go, dif_neg htake]
    simp only []
    by_cases hover : MAX_BYTES < total + (data.take chunkSize).length
    · rw [if_pos hover]
      exact ⟨_, rfl⟩
    · rw [if_neg hover]
      have htl : (data.take chunkSize).length = min chunkSize data.length :=
        List.length_take _ _
      have hdl : (data.drop chunkSize).length = data.length - chunkSize :=
        List.length_drop _ _
      refine ih (data.drop chunkSize) (by omega) (total + (data.take chunkSize).length)
        _ ?_ ?_
      · intro hd
        have : (data.drop chunkSize).length = 0 := by rw [hd]; rfl
        omega
      · omega

/-- C8 (amended): an oversized (> 50 MiB) seekable non-archive input — in
particular every existing path input — is diverted to the chunked reader
`_extract_large_file`, which consumes the bytes in `chunkSize`-sized pieces
and whose output ends in the truncation marker; the model never represents
the input as a single decoded whole in that branch.  (Non-seekable streams
bypass the size check and are decoded whole, see the counterexample.) -/
theorem extract_text_large_file_truncation (C : Codecs) (fuel : Nat)
    (p : String) (content : List Nat) (file_name : Option String)
    (hbig : MAX_BYTES < content.length)
    (harch : suffixOf (some p) ∉ archiveSuffixes) :
    extract_text C fuel (FileInput.path p (some content)) file_name
      = _extract_large_file C content p
    ∧ ∃ s, _extract_large_file C content p = s ++ "\n[内容过长，已截断]" := by
  constructor
  · simp [extract_text, extract_text_step, extract_body, hbig, harch]
  · have hne : content ≠ [] := by
      intro h
      rw [h] at hbig
      simp [MAX_BYTES] at hbig
    exact extract_large_go_truncates C 65536 (by norm_num) content.length content
      le_rfl 0 "" hne (by simpa using hbig)

/-- Witness for C8 (amended) at a 50 MiB + 1 byte plain-text path input. -/
theorem extract_text_large_file_truncation_witness :
    extract_text testCodecs 1 (FileInput.path "a.txt" (some hugeBytes)) none
      = _extract_large_file testCodecs hugeBytes "a.txt"
    ∧ ∃ s, _extract_large_file testCodecs hugeBytes "a.txt"
        = s ++ "\n[内容过长，已截断]" :=
  extract_text_large_file_truncation testCodecs 1 "a.txt" hugeBytes none
    (by simp only [hugeBytes, MAX_BYTES, List.length_replicate]; omega)
    (by decide)

/-- C8 (counterexample): a non-seekable stream one byte over the 50 MiB
ceiling bypasses the size check (`fp.seekable()` is false), so the whole
stream is read and best-effort decoded in one piece and the output carries
no truncation marker — against the claim that every oversized non-archive
input is chunk-read and truncated. -/
theorem extract_text_nonseekable_counterexample :
    MAX_BYTES < hugeBytes.length
    ∧ extract_text testCodecs 1
        (FileInput.stream (some "a.txt") hugeBytes false true) none = "DECODED"
    ∧ strEndsWith "DECODED" "\n[内容过长，已截断]" = false := by
  refine ⟨?_, rfl, by decide⟩
  simp only [hugeBytes, MAX_BYTES, List.length_replicate]
  omega

/-- C6: extraction never lets an exception escape: every outcome is the
not-found marker (missing path), the invalid-object marker, a parse-failure
marker `[读取失败] <exception text>` produced from a decoder error by the
surrounding handler, or the successful dispatch result; a decoder error is
always converted into exactly that marker with the original exception text
embedded; and a suffix outside every dedicated decoder falls through to the
plain-text best-effort decode `_safe_decode`, which never fails. -/
theorem extract_text_error_containment (C : Codecs) (fuel : Nat) :
    (∀ p file_name,
      extract_text C fuel (FileInput.path p none) file_name
        = "[错误] 文件不存在: " ++ p)
    ∧ (∀ file_obj file_name,
        (∃ p, file_obj = FileInput.path p none
          ∧ extract_text C fuel file_obj file_name = "[错误] 文件不存在: " ++ p)
        ∨ extract_text C fuel file_obj file_name = "[错误] 无效的文件对象"
        ∨ (∃ e, extract_text C fuel file_obj file_name = "[读取失败] " ++ e)
        ∨ (∃ nm content seekable,
            extract_body C (memberExtract C fuel) nm content seekable
              = Except.ok (extract_text C fuel file_obj file_name)))
    ∧ (∀ nm content seekable e,
        extract_body C (memberExtract C fuel) (some nm) content seekable
          = Except.error e →
        extract_text C fuel (FileInput.stream (some nm) content seekable true) none
          = "[读取失败] " ++ e)
    ∧ (∀ nm content,
        suffixOf (some nm) ∉ ([".pdf", ".docx", ".csv", ".json", ".html", ".htm",
          ".php", ".jpg", ".jpeg", ".png"] ++ archiveSuffixes) →
        ¬(MAX_BYTES < content.length) →
        extract_text C fuel (FileInput.stream (some nm) content true true) none
          = _safe_decode C content) := by
  refine ⟨fun p file_name => rfl, ?_, ?_, ?_⟩
  · intro file_obj file_name
    cases file_obj with
    | path p onDisk =>
      cases onDisk with
      | none => exact Or.inl ⟨p, rfl, rfl⟩
      | some content =>
        cases h : extract_body C (memberExtract C fuel) (some p) content true with
        | ok t =>
          refine Or.inr (Or.inr (Or.inr ⟨some p, content, true, ?_⟩))
          rw [h]
          have : extract_text C fuel (FileInput.path p (some content)) file_name
              = t := by
            simp [extract_text, extract_text_step, h]
          rw [this]
        | error e =>
          refine Or.inr (Or.inr (Or.inl ⟨e, ?_⟩))
          simp [extract_text, extract_text_step, h]
    | stream sname content seekable hasRead =>
      cases hasRead with
      | false => exact Or.inr (Or.inl (by simp [extract_text, extract_text_step]))
      | true =>
        cases h : extract_body C (memberExtract C fuel) (file_name <|> sname)
            content seekable with
        | ok t =>
          refine Or.inr (Or.inr (Or.inr ⟨file_name <|> sname, content, seekable, ?_⟩))
          rw [h]
          have : extract_text C fuel
              (FileInput.stream sname content seekable true) file_name = t := by
            simp [extract_text, extract_text_step, h]
          rw [this]
        | error e =>
          refine Or.inr (Or.inr (Or.inl ⟨e, ?_⟩))
          simp [extract_text, extract_text_step, h]
  · intro nm content seekable e h
    simp only [extract_text, extract_text_step, Bool.not_true, Option.none_orElse]
    rw [if_neg (by simp)]
    rw [h]
  · intro nm content h1 h2
    have hmem : ∀ t : String, t ∈ ([".pdf", ".docx", ".csv", ".json", ".html",
        ".htm", ".php", ".jpg", ".jpeg", ".png"] ++ archiveSuffixes) →
        suffixOf (some nm) ≠ t :=
      fun t ht hc => h1 (by rw [hc]; exact ht)
    simp [extract_text, extract_text_step, extract_body, archiveSuffixes, h2,
      hmem ".pdf" (by simp [archiveSuffixes]),
      hmem ".docx" (by simp [archiveSuffixes]),
      hmem ".csv" (by simp [archiveSuffixes]),
      hmem ".json" (by simp [archiveSuffixes]),
      hmem ".html" (by simp [archiveSuffixes]),
      hmem ".htm" (by simp [archiveSuffixes]),
      hmem ".php" (by simp [archiveSuffixes]),
      hmem ".jpg" (by simp [archiveSuffixes]),
      hmem ".jpeg" (by simp [archiveSuffixes]),
      hmem ".png" (by simp [archiveSuffixes]),
      hmem ".zip" (by simp [archiveSuffixes]),
      hmem ".rar" (by simp [archiveSuffixes]),
      hmem ".7z" (by simp [archiveSuffixes]),
      hmem ".tar" (by simp [archiveSuffixes]),
      hmem ".gz" (by simp [archiveSuffixes])]

/-- Witness for C6: a pdf whose decoder raises `boom` comes back as the
inline failure marker, and an unknown suffix falls through to the
best-effort plain-text decode. -/
theorem extract_text_error_containment_witness :
    extract_text testCodecs 1
        (FileInput.stream (some "f.pdf") [0] true true) none
      = "[读取失败] " ++ "boom"
    ∧ extract_text testCodecs 1
        (FileInput.stream (some "f.xyz") [0] true true) none
      = _safe_decode testCodecs [0] :=
  ⟨(extract_text_error_containment testCodecs 1).2.2.1 "f.pdf" [0] true "boom" rfl,
   (extract_text_error_containment testCodecs 1).2.2.2 "f.xyz" [0]
     (by decide) (by decide)⟩

/-- C7 (counterexample): the per-member size ceiling is only enforced in the
zip branch — a tar archive whose single regular member is one byte over
10 MiB is extracted in full, with no "skipped: too large" marker, against
the claim that every archive kind skips oversized members. -/
theorem process_archive_tar_no_ceiling_counterexample :
    10 * 1024 * 1024 < bigBytes.length
    ∧ process_archive testCodecs (fun _ _ => "X") bigBytes ".tar"
      = "【member.bin】\nX"
    ∧ "【member.bin】\nX" ≠ "【member.bin】\n[文件过大跳过: 10240KB]" := by
  refine ⟨?_, rfl, by decide⟩
  simp only [bigBytes, List.length_replicate]
  omega

/-- C7 (amended): `process_archive` enforces the 10 MiB per-member ceiling
for zip archives only: a zip member (that is neither a directory entry nor
macOS metadata) whose metadata size exceeds the ceiling is replaced by the
skip marker, and a zip holding one oversized and one normal member yields
exactly the skip marker followed by the normal member's extracted text;
rar/7z/tar members are extracted with no size check (see counterexample). -/
theorem process_archive_zip_member_ceiling (C : Codecs)
    (ext : List Nat → String → String) (content : List Nat) :
    (∀ m : ZipMember, strEndsWith m.name "/" = false →
      strStartsWith m.name "__MACOSX/" = false →
      10 * 1024 * 1024 < m.fileSize →
      processZipMember ext m
        = some ("【" ++ m.name ++ "】\n[文件过大跳过: "
            ++ toString (m.fileSize / 1024) ++ "KB]"))
    ∧ (∀ bm nm : ZipMember, ∀ rc : List Nat,
        C.zipParse content = Except.ok [bm, nm] →
        strEndsWith bm.name "/" = false →
        strStartsWith bm.name "__MACOSX/" = false →
        10 * 1024 * 1024 < bm.fileSize →
        strEndsWith nm.name "/" = false →
        strStartsWith nm.name "__MACOSX/" = false →
        ¬(10 * 1024 * 1024 < nm.fileSize) →
        nm.read = Except.ok rc → ¬(MAX_BYTES < rc.length) →
        process_archive C ext content ".zip"
          = String.intercalate "\n\n"
              ["【" ++ bm.name ++ "】\n[文件过大跳过: "
                 ++ toString (bm.fileSize / 1024) ++ "KB]",
               "【" ++ nm.name ++ "】\n" ++ ext rc nm.name]) := by
  constructor
  · intro m h1 h2 h3
    simp [processZipMember, h1, h2, h3]
  · intro bm nm rc hzip hb1 hb2 hb3 hn1 hn2 hn3 hnread hnlen
    have ebm : processZipMember ext bm
        = some ("【" ++ bm.name ++ "】\n[文件过大跳过: "
            ++ toString (bm.fileSize / 1024) ++ "KB]") := by
      simp [processZipMember, hb1, hb2, hb3]
    have enm : processZipMember ext nm
        = some ("【" ++ nm.name ++ "】\n" ++ ext rc nm.name) := by
      simp [processZipMember, hn1, hn2, hn3, hnread, hnlen]
    simp [process_archive, hzip, ebm, enm, Except.map, List.filterMap_cons,
      List.filterMap_nil]

/-- Witness for C7 (amended) on the two-member zip archive. -/
theorem process_archive_zip_member_ceiling_witness :
    process_archive zipCodecs (fun _ _ => "Y") [0] ".zip"
      = String.intercalate "\n\n"
          ["【big.bin】\n[文件过大跳过: " ++ toString ((10 * 1024 * 1024 + 1) / 1024)
             ++ "KB]",
           "【ok.txt】\n" ++ (fun _ _ => "Y") [65, 66] "ok.txt"] :=
  (process_archive_zip_member_ceiling zipCodecs (fun _ _ => "Y") [0]).2
    ⟨"big.bin", 10 * 1024 * 1024 + 1, Except.ok []⟩
    ⟨"ok.txt", 3, Except.ok [65, 66]⟩ [65, 66]
    rfl (by decide) (by decide) (by norm_num) (by decide) (by decide)
    (by norm_num) rfl (by decide)

end AIChat
